import Mathlib

/-!
# VisionAssistant — scene-salience and narration engine, shallow embedding

This file embeds the decision logic of `src/app.py` (ranking, selection,
descriptors, narration composition, speech gate) as Lean definitions and
proves the specification's testable properties about them.

Modelling conventions:
* Python floats are modelled as exact rationals `ℚ` (the spec's boundary
  claims are about comparison strictness, which this preserves); the one
  square root in the salience score (`(dx**2 + dy**2) ** 0.5`) is modelled
  by `Real.sqrt`, so the score lives in `ℝ` and score-dependent
  definitions are `noncomputable`.
* Frame dimensions are Python ints, modelled as `ℤ`.
* Python's `sorted(dets, key=score, reverse=True)` is the stable sort that
  orders by strictly greater score and keeps input order on ties.
  `List.insertionSort` with the relation `scoreGE w h a b := score b ≤ score a`
  computes exactly that list (insertion sort with a total preorder is
  stable, and the stable sort by a fixed preorder is unique), so
  `rank_objects` is defined through it.
* The mutable global `LAST` dict read and written by `should_speak` is
  passed as explicit state (`SpeechState`), and `time.time()` becomes the
  explicit `now` argument; the function returns the decision together with
  the state after the call.
-/

namespace VisionAssistant

/-- One detection dict `{"label": .., "conf": .., "bbox": (x1,y1,x2,y2)}`
from `app.py`, with the bbox 4-tuple flattened into four fields. -/
structure Detection where
  label : String
  conf : ℚ
  x1 : ℚ
  y1 : ℚ
  x2 : ℚ
  y2 : ℚ
deriving DecidableEq

/-- `DANGER = {"car", "bus", "truck", "motorcycle", "bicycle"}` (app.py line 38).
The Python set is modelled as a list consulted only through membership. -/
def DANGER : List String := ["car", "bus", "truck", "motorcycle", "bicycle"]

/-- `RU_LABELS` dict of app.py (lines 41–64). -/
def RU_LABELS : List (String × String) :=
  [("person", "человек"), ("car", "машина"), ("bus", "автобус"),
   ("truck", "грузовик"), ("motorcycle", "мотоцикл"), ("bicycle", "велосипед"),
   ("traffic light", "светофор"), ("stop sign", "знак стоп"), ("chair", "стул"),
   ("couch", "диван"), ("bed", "кровать"), ("dining table", "стол"),
   ("laptop", "ноутбук"), ("cell phone", "телефон"), ("tv", "телевизор"),
   ("bottle", "бутылка"), ("cup", "кружка"), ("book", "книга"),
   ("backpack", "рюкзак"), ("handbag", "сумка"), ("dog", "собака"),
   ("cat", "кот")]

/-- `ru_label(x) = RU_LABELS.get(x, x)` (app.py lines 66–67). -/
def ru_label (x : String) : String :=
  match RU_LABELS.find? (fun p => p.1 == x) with
  | some p => p.2
  | none => x

/-- The global `LAST = {"phrase": "", "time": 0.0}` state of the speech gate
(app.py line 70). -/
structure SpeechState where
  lastPhrase : String
  lastTime : ℚ
deriving DecidableEq

/-- `should_speak(phrase, cooldown_sec)` (app.py lines 72–78), with the
global `LAST` and `time.time()` made explicit: returns the decision and the
state of `LAST` after the call. -/
def should_speak (phrase : String) (st : SpeechState) (cooldownSec : ℚ)
    (now : ℚ) : Bool × SpeechState :=
  if phrase = st.lastPhrase ∧ now - st.lastTime < cooldownSec then
    (false, st)
  else
    (true, ⟨phrase, now⟩)

/-- The priority factor inside `rank_objects.score` (app.py line 95):
`priority = 1.35 if d["label"] in DANGER else 1.0`. -/
def priority (label : String) : ℚ :=
  if label ∈ DANGER then 1.35 else 1

/-- The clamped bbox area `max(0.0, x2-x1) * max(0.0, y2-y1)` computed
identically inside `rank_objects.score` (line 89) and `describe` (line 142). -/
def area (d : Detection) : ℚ :=
  max 0 (d.x2 - d.x1) * max 0 (d.y2 - d.y1)

/-- The inner `score(d)` of `rank_objects` (app.py lines 88–96).
`(dx**2 + dy**2) ** 0.5` is `Real.sqrt`, hence the value lives in `ℝ`. -/
noncomputable def score (w h : ℤ) (d : Detection) : ℝ :=
  let cxImg : ℚ := (w : ℚ) / 2
  let cyImg : ℚ := (h : ℚ) / 2
  let imgArea : ℤ := max (w * h) 1
  let cx : ℚ := (d.x1 + d.x2) / 2
  let cy : ℚ := (d.y1 + d.y2) / 2
  let dist : ℝ := Real.sqrt (((cx - cxImg : ℚ) : ℝ) ^ 2 + ((cy - cyImg : ℚ) : ℝ) ^ 2)
  let centerScore : ℝ := 1 / (1 + dist)
  (0.6 * ((area d : ℚ) : ℝ) + 0.4 * centerScore * ((imgArea : ℤ) : ℝ))
    * ((d.conf : ℚ) : ℝ) * ((priority d.label : ℚ) : ℝ)

/-- The comparison `sorted(..., key=score, reverse=True)` sorts by:
`a` may come before `b` iff `score b ≤ score a`. -/
def scoreGE (w h : ℤ) (a b : Detection) : Prop :=
  score w h b ≤ score w h a

noncomputable instance (w h : ℤ) : DecidableRel (scoreGE w h) :=
  fun a b => Real.decidableLE (score w h b) (score w h a)

instance (w h : ℤ) : IsTotal Detection (scoreGE w h) :=
  ⟨fun a b => le_total (score w h b) (score w h a)⟩

instance (w h : ℤ) : IsTrans Detection (scoreGE w h) :=
  ⟨fun _ _ _ hab hbc => le_trans hbc hab⟩

/-- `rank_objects(dets, w, h)` (app.py lines 82–99): early return on the
empty list, else Python's stable descending sort by `score`, computed here
by insertion sort with the total preorder `scoreGE`. -/
noncomputable def rank_objects (dets : List Detection) (w h : ℤ) : List Detection :=
  if dets.isEmpty then []
  else List.insertionSort (scoreGE w h) dets

/-- `pick_main_and_danger(ranked)` (app.py lines 101–116): `[main]` or
`[main, danger]`; the loop with `break` over `ranked[1:]` is `List.find?`. -/
def pick_main_and_danger (ranked : List Detection) : List Detection :=
  match ranked with
  | [] => []
  | main :: rest =>
    match rest.find? (fun d => decide (d.label ∈ DANGER ∧ d.label ≠ main.label)) with
    | some dangerObj => [main, dangerObj]
    | none =>
      match rest with
      | d2 :: _ => if d2.conf ≥ 0.45 then [main, d2] else [main]
      | [] => [main]

/-- `pos_word(cx, w)` (app.py lines 118–124). -/
def pos_word (cx : ℚ) (w : ℤ) : String :=
  let x : ℚ := cx / ((max w 1 : ℤ) : ℚ)
  if x < 0.35 then "слева"
  else if x > 0.65 then "справа"
  else "по центру"

/-- `distance_word(area_ratio)` (app.py lines 126–134). -/
def distance_word (areaShare : ℚ) : String :=
  if areaShare > 0.22 then "очень близко"
  else if areaShare > 0.10 then "близко"
  else if areaShare > 0.04 then "на среднем расстоянии"
  else "далеко"

/-- `danger_word(label)` (app.py lines 136–137). -/
def danger_word (label : String) : String :=
  if label ∈ DANGER then "опасно" else "не опасно"

/-- The dict returned by `describe` (app.py lines 145–150). -/
structure Descriptor where
  name : String
  pos : String
  dist : String
  danger : String
deriving DecidableEq

/-- `describe(obj, w, h)` (app.py lines 139–150). -/
def describe (obj : Detection) (w h : ℤ) : Descriptor :=
  let cx : ℚ := (obj.x1 + obj.x2) / 2
  let areaShare : ℚ := area obj / ((max (w * h) 1 : ℤ) : ℚ)
  { name := ru_label obj.label
    pos := pos_word cx w
    dist := distance_word areaShare
    danger := danger_word obj.label }

/-- `make_phrase(objs, w, h)` (app.py lines 152–162). -/
def make_phrase (objs : List Detection) (w h : ℤ) : String :=
  match objs with
  | [] => "Я не вижу уверенных объектов. Подойдите ближе или улучшите освещение."
  | o1 :: rest =>
    let a := describe o1 w h
    let phrase :=
      "Перед вами " ++ a.name ++ ", " ++ a.pos ++ ", " ++ a.dist ++ ". Это " ++ a.danger ++ "."
    match rest with
    | o2 :: _ =>
      let b := describe o2 w h
      let extra :=
        "Также " ++ b.name ++ ", " ++ b.pos ++ ", " ++ b.dist ++ ". Это " ++ b.danger ++ "."
      phrase ++ " " ++ extra
    | [] => phrase

/-! ## Helper lemmas -/

theorem rank_objects_cons (d : Detection) (l : List Detection) (w h : ℤ) :
    rank_objects (d :: l) w h = List.insertionSort (scoreGE w h) (d :: l) := by
  simp [rank_objects]

theorem rank_perm (dets : List Detection) (w h : ℤ) :
    List.Perm (rank_objects dets w h) dets := by
  cases dets with
  | nil => exact List.Perm.refl _
  | cons d l => rw [rank_objects_cons]; exact List.perm_insertionSort _ _

theorem rank_sorted (dets : List Detection) (w h : ℤ) :
    List.Sorted (scoreGE w h) (rank_objects dets w h) := by
  cases dets with
  | nil => exact List.sorted_nil
  | cons d l => rw [rank_objects_cons]; exact List.sorted_insertionSort _ _

/-- Stability of insertion sort, filter form: a filter that only keeps
elements any two of which are related by `r` is unchanged by the sort. -/
theorem filter_insertionSort_eq {α : Type*} (r : α → α → Prop) [DecidableRel r]
    (p : α → Bool) (hp : ∀ a b, p a = true → p b = true → r a b) (l : List α) :
    (List.insertionSort r l).filter p = l.filter p := by
  have hpair : (l.filter p).Pairwise r :=
    List.pairwise_of_forall_mem_list fun a ha b hb =>
      hp a b (List.mem_filter.mp ha).2 (List.mem_filter.mp hb).2
  have hsub : List.Sublist (l.filter p) (List.insertionSort r l) :=
    List.sublist_insertionSort hpair (List.filter_sublist l)
  have hsub2 : List.Sublist ((l.filter p).filter p) ((List.insertionSort r l).filter p) :=
    hsub.filter p
  have hself : (l.filter p).filter p = l.filter p :=
    List.filter_eq_self.mpr fun a ha => (List.mem_filter.mp ha).2
  rw [hself] at hsub2
  have hlen : ((List.insertionSort r l).filter p).length = (l.filter p).length :=
    ((List.perm_insertionSort r l).filter p).length_eq
  exact (hsub2.eq_of_length hlen.symm).symm

theorem rank_filter (dets : List Detection) (w h : ℤ) (p : Detection → Bool)
    (hp : ∀ a b, p a = true → p b = true → scoreGE w h a b) :
    (rank_objects dets w h).filter p = dets.filter p := by
  cases dets with
  | nil => rfl
  | cons d l => rw [rank_objects_cons]; exact filter_insertionSort_eq _ p hp _

theorem find?_eq_some_split {α : Type*} {p : α → Bool} :
    ∀ {l : List α} {a : α}, l.find? p = some a →
      ∃ pre post, l = pre ++ a :: post ∧ ∀ x ∈ pre, p x = false := by
  intro l
  induction l with
  | nil => intro a hfind; simp [List.find?] at hfind
  | cons b t ih =>
    intro a hfind
    by_cases hb : p b
    · rw [List.find?_cons_of_pos _ hb] at hfind
      obtain rfl := Option.some.inj hfind
      exact ⟨[], t, rfl, by simp⟩
    · rw [List.find?_cons_of_neg _ hb] at hfind
      obtain ⟨pre, post, rfl, hpre⟩ := ih hfind
      refine ⟨b :: pre, post, rfl, ?_⟩
      intro x hx
      rcases List.mem_cons.mp hx with rfl | hx
      · simpa using hb
      · exact hpre x hx

theorem indexOf_lt_of_sorted_of_lt {w h : ℤ} :
    ∀ {l : List Detection}, l.Pairwise (scoreGE w h) →
      ∀ {d1 d2 : Detection}, d1 ≠ d2 → d1 ∈ l → d2 ∈ l →
        score w h d2 < score w h d1 → l.indexOf d1 < l.indexOf d2 := by
  intro l
  induction l with
  | nil => intro _ d1 d2 _ h1; exact absurd h1 (List.not_mem_nil _)
  | cons x t ih =>
    intro hp d1 d2 hne h1 h2 hs
    rcases List.pairwise_cons.mp hp with ⟨hx, hpt⟩
    by_cases hx1 : x = d1
    · subst hx1
      rw [List.indexOf_cons_self]
      rw [List.indexOf_cons_ne _ hne]
      exact Nat.succ_pos _
    · have h1t : d1 ∈ t := by
        rcases List.mem_cons.mp h1 with heq | hmem
        · exact absurd heq.symm hx1
        · exact hmem
      by_cases hx2 : x = d2
      · subst hx2
        exact absurd (hx d1 h1t) (not_le.mpr hs)
      · have h2t : d2 ∈ t := by
          rcases List.mem_cons.mp h2 with heq | hmem
          · exact absurd heq.symm hx2
          · exact hmem
        rw [List.indexOf_cons_ne _ hx1]
        rw [List.indexOf_cons_ne _ hx2]
        exact Nat.succ_lt_succ (ih hpt hne h1t h2t hs)

theorem area_nonneg (d : Detection) : 0 ≤ area d :=
  mul_nonneg (le_max_left 0 _) (le_max_left 0 _)

/-! ## Claim theorems -/

/-- C1: for every list of detections and every frame context, `rank_objects`
returns a permutation of the input sorted by non-increasing salience score,
and the sort is stable: for each score value, the elements carrying it
appear in the output in their input order. -/
theorem rank_is_stable_descending_sort (dets : List Detection) (w h : ℤ) :
    List.Perm (rank_objects dets w h) dets ∧
    List.Sorted (scoreGE w h) (rank_objects dets w h) ∧
    ∀ s : ℝ, (rank_objects dets w h).filter (fun d => decide (score w h d = s)) =
      dets.filter (fun d => decide (score w h d = s)) :=
  ⟨rank_perm dets w h, rank_sorted dets w h, fun s =>
    rank_filter dets w h _ fun a b ha hb => by
      have ha' := of_decide_eq_true ha
      have hb' := of_decide_eq_true hb
      unfold scoreGE
      rw [ha', hb']⟩

/-- C3: the speech gate refuses exactly when the phrase is unchanged and the
cooldown has not elapsed; it updates the state exactly when it accepts. -/
theorem should_speak_spec (phrase : String) (st : SpeechState) (cd now : ℚ) :
    ((should_speak phrase st cd now).1 = false ↔
      phrase = st.lastPhrase ∧ now - st.lastTime < cd) ∧
    ((should_speak phrase st cd now).1 = true →
      (should_speak phrase st cd now).2 = ⟨phrase, now⟩) ∧
    ((should_speak phrase st cd now).1 = false →
      (should_speak phrase st cd now).2 = st) := by
  unfold should_speak
  split_ifs with hcond
  · simp [hcond]
  · simp [hcond]

/-- C3 witness: the very first call with a fresh phrase speaks and records it. -/
theorem should_speak_spec_witness :
    (should_speak "A" ⟨"", 0⟩ 3 1).1 = true ∧
    (should_speak "A" ⟨"", 0⟩ 3 1).2 = ⟨"A", 1⟩ := by
  have h := should_speak_spec "A" ⟨"", 0⟩ 3 1
  have h1 : (should_speak "A" ⟨"", 0⟩ 3 1).1 = true := by
    cases hx : (should_speak "A" ⟨"", 0⟩ 3 1).1
    · exact absurd (h.1.mp hx).1 (by decide)
    · rfl
  exact ⟨h1, h.2.1 h1⟩

/-- C10: with the initial state and the empty phrase, a call inside the
cooldown window returns `false` and leaves the state unchanged. -/
theorem first_call_empty_phrase (cd now : ℚ) (h : now - 0 < cd) :
    should_speak "" ⟨"", 0⟩ cd now = (false, ⟨"", 0⟩) := by
  unfold should_speak
  rw [if_pos ⟨rfl, h⟩]

/-- C10 witness at `now = 1`, `cooldown = 3`. -/
theorem first_call_empty_phrase_witness :
    should_speak "" ⟨"", 0⟩ 3 1 = (false, ⟨"", 0⟩) :=
  first_call_empty_phrase 3 1 (by norm_num)

/-- C4: bucket boundaries are strict: relative positions exactly `0.35` and
`0.65` land in the `center` bucket, and area ratios exactly `0.22`, `0.10`,
`0.04` land in the lower distance bucket. -/
theorem bucket_boundaries :
    (∀ (cx : ℚ) (w : ℤ), cx / ((max w 1 : ℤ) : ℚ) = 0.35 → pos_word cx w = "по центру") ∧
    (∀ (cx : ℚ) (w : ℤ), cx / ((max w 1 : ℤ) : ℚ) = 0.65 → pos_word cx w = "по центру") ∧
    distance_word 0.22 = "близко" ∧
    distance_word 0.10 = "на среднем расстоянии" ∧
    distance_word 0.04 = "далеко" := by
  refine ⟨?_, ?_, ?_, ?_, ?_⟩
  · intro cx w hx
    simp only [pos_word, hx]
    norm_num
  · intro cx w hx
    simp only [pos_word, hx]
    norm_num
  · norm_num [distance_word]
  · norm_num [distance_word]
  · norm_num [distance_word]

/-- C4 witness: concrete boundary inputs. -/
theorem bucket_boundaries_witness :
    pos_word 35 100 = "по центру" ∧ pos_word 65 100 = "по центру" := by
  constructor
  · refine bucket_boundaries.1 35 100 ?_
    rw [show max (100 : ℤ) 1 = 100 by decide]
    norm_num
  · refine bucket_boundaries.2.1 65 100 ?_
    rw [show max (100 : ℤ) 1 = 100 by decide]
    norm_num

/-- C5: the ranker applies the `1.35` priority multiplier exactly for the
labels the descriptor resolver flags as dangerous: both consult `DANGER`. -/
theorem danger_set_consistent (obj : Detection) (w h : ℤ) :
    priority obj.label = 1.35 ↔ (describe obj w h).danger = "опасно" := by
  unfold priority describe danger_word
  by_cases hm : obj.label ∈ DANGER
  · simp [hm]
  · simp only [hm, if_false, ite_false]
    constructor
    · intro habs; exact absurd habs (by norm_num)
    · intro habs; exact absurd habs (by decide)

/-- C5 witness: `car` is dangerous for both components. -/
theorem danger_set_consistent_witness :
    (describe ⟨"car", 1, 0, 0, 1, 1⟩ 10 10).danger = "опасно" ∧
    priority "car" = 1.35 := by
  have hp : priority "car" = 1.35 := by norm_num [priority, DANGER]
  exact ⟨(danger_set_consistent ⟨"car", 1, 0, 0, 1, 1⟩ 10 10).mp hp, hp⟩

/-- C9: every stage degrades gracefully on empty input: empty ranking, empty
selection, and the fixed fallback sentence. -/
theorem empty_input_degrades :
    (∀ w h : ℤ, rank_objects [] w h = []) ∧
    pick_main_and_danger [] = [] ∧
    (∀ w h : ℤ, make_phrase [] w h =
      "Я не вижу уверенных объектов. Подойдите ближе или улучшите освещение.") :=
  ⟨fun _ _ => rfl, rfl, fun _ _ => rfl⟩

/-- C8: the core functions are total over their input types: ranking always
returns a list of the same length, the clamped area is never negative, the
clamped frame area is never below one, `describe` always produces one of the
enumerated buckets, and `make_phrase` always produces a non-empty sentence —
with no restriction on geometry (inverted or out-of-bounds boxes, zero-area
frames) or labels. -/
theorem core_functions_total :
    (∀ (dets : List Detection) (w h : ℤ), (rank_objects dets w h).length = dets.length) ∧
    (∀ d : Detection, 0 ≤ area d) ∧
    (∀ w h : ℤ, (1 : ℤ) ≤ max (w * h) 1) ∧
    (∀ (obj : Detection) (w h : ℤ),
      (describe obj w h).pos ∈ ["слева", "справа", "по центру"] ∧
      (describe obj w h).dist ∈ ["очень близко", "близко", "на среднем расстоянии", "далеко"] ∧
      (describe obj w h).danger ∈ ["опасно", "не опасно"]) ∧
    (∀ (objs : List Detection) (w h : ℤ), make_phrase objs w h ≠ "") := by
  refine ⟨fun dets w h => (rank_perm dets w h).length_eq, area_nonneg,
    fun w h => le_max_right _ _, fun obj w h => ⟨?_, ?_, ?_⟩, fun objs w h => ?_⟩
  · simp only [describe, pos_word]
    split_ifs <;> simp
  · simp only [describe, distance_word]
    split_ifs <;> simp
  · simp only [describe, danger_word]
    split_ifs <;> simp
  · cases objs with
    | nil =>
      simp only [make_phrase]
      decide
    | cons o1 rest =>
      cases rest with
      | nil =>
        simp only [make_phrase]
        intro hemp
        have hl := congrArg String.length hemp
        simp only [String.length_append, String.length_empty] at hl
        rw [show String.length "Перед вами " = 11 from by decide] at hl
        omega
      | cons o2 t =>
        simp only [make_phrase]
        intro hemp
        have hl := congrArg String.length hemp
        simp only [String.length_append, String.length_empty] at hl
        rw [show String.length "Перед вами " = 11 from by decide] at hl
        omega

/-- C8 witness: an inverted bbox in a zero-area frame is still ranked, and
the empty selection still composes to a non-empty sentence. -/
theorem core_functions_total_witness :
    (rank_objects [⟨"car", 1, 5, 5, 1, 1⟩] 0 0).length = 1 ∧
    make_phrase [] 0 0 ≠ "" := by
  have h := core_functions_total
  constructor
  · rw [h.1 [⟨"car", 1, 5, 5, 1, 1⟩] 0 0]
    rfl
  · exact h.2.2.2.2 [] 0 0

/-- C2: for every non-empty ranked list, the selection starts with the top
detection; the secondary is the first later detection with a dangerous label
different from the primary's, if any; otherwise the second-ranked detection
when its confidence reaches `0.45`; otherwise the primary alone. -/
theorem pick_spec (main : Detection) (rest : List Detection) :
    (pick_main_and_danger (main :: rest)).head? = some main ∧
    ((∃ d ∈ rest, d.label ∈ DANGER ∧ d.label ≠ main.label) →
      ∃ pre d post, rest = pre ++ d :: post ∧
        (d.label ∈ DANGER ∧ d.label ≠ main.label) ∧
        (∀ x ∈ pre, ¬(x.label ∈ DANGER ∧ x.label ≠ main.label)) ∧
        pick_main_and_danger (main :: rest) = [main, d]) ∧
    ((∀ d ∈ rest, ¬(d.label ∈ DANGER ∧ d.label ≠ main.label)) →
      (rest = [] → pick_main_and_danger (main :: rest) = [main]) ∧
      (∀ d2 t, rest = d2 :: t →
        (0.45 ≤ d2.conf → pick_main_and_danger (main :: rest) = [main, d2]) ∧
        (d2.conf < 0.45 → pick_main_and_danger (main :: rest) = [main]))) := by
  cases hf : rest.find? (fun d => decide (d.label ∈ DANGER ∧ d.label ≠ main.label)) with
  | some d0 =>
    have hb0 := List.find?_some hf
    have hp0 := of_decide_eq_true hb0
    obtain ⟨pre, post, hsplit, hpre⟩ := find?_eq_some_split hf
    have hpick : pick_main_and_danger (main :: rest) = [main, d0] := by
      unfold pick_main_and_danger
      dsimp only
      rw [hf]
    refine ⟨by rw [hpick]; rfl, fun _ => ⟨pre, d0, post, hsplit, hp0, ?_, hpick⟩,
      fun hall => absurd hp0 (hall d0 (List.mem_of_find?_eq_some hf))⟩
    intro x hx
    exact of_decide_eq_false (hpre x hx)
  | none =>
    have hhead : (pick_main_and_danger (main :: rest)).head? = some main := by
      cases rest with
      | nil => rfl
      | cons d2 t =>
        unfold pick_main_and_danger
        dsimp only
        rw [hf]
        dsimp only
        split_ifs <;> rfl
    refine ⟨hhead, fun hex => ?_, fun _ => ⟨?_, ?_⟩⟩
    · obtain ⟨d, hd, hpd⟩ := hex
      have := List.find?_eq_none.mp hf d hd
      simp only [decide_eq_true_eq] at this
      exact absurd hpd this
    · intro hrest
      subst hrest
      rfl
    · intro d2 t hrest
      subst hrest
      constructor
      · intro hc
        unfold pick_main_and_danger
        dsimp only
        rw [hf]
        dsimp only
        rw [if_pos hc]
      · intro hc
        unfold pick_main_and_danger
        dsimp only
        rw [hf]
        dsimp only
        rw [if_neg (not_le.mpr hc)]

/-- C2 witness: a dangerous second detection is selected as secondary. -/
theorem pick_spec_witness :
    (pick_main_and_danger
      [⟨"person", 9/10, 0, 0, 1, 1⟩, ⟨"car", 8/10, 0, 0, 1, 1⟩]).head? =
        some ⟨"person", 9/10, 0, 0, 1, 1⟩ ∧
    pick_main_and_danger [⟨"person", 9/10, 0, 0, 1, 1⟩, ⟨"car", 8/10, 0, 0, 1, 1⟩] =
      [⟨"person", 9/10, 0, 0, 1, 1⟩, ⟨"car", 8/10, 0, 0, 1, 1⟩] := by
  have h := pick_spec ⟨"person", 9/10, 0, 0, 1, 1⟩ [⟨"car", 8/10, 0, 0, 1, 1⟩]
  refine ⟨h.1, ?_⟩
  obtain ⟨pre, d, post, hsplit, _, _, hpick⟩ :=
    h.2.1 ⟨⟨"car", 8/10, 0, 0, 1, 1⟩, by simp, by decide, by decide⟩
  cases pre with
  | nil =>
    obtain ⟨rfl, -⟩ := List.cons.inj hsplit.symm
    exact hpick
  | cons y ys => simp at hsplit

/-! ### Salience comparison lemmas for C6 -/

theorem aux_base_nonneg {ar cs im c : ℝ} (har : 0 ≤ ar) (hcs : 0 ≤ cs)
    (him : 0 ≤ im) (hc : 0 ≤ c) : 0 ≤ (0.6 * ar + 0.4 * cs * im) * c :=
  mul_nonneg
    (add_nonneg (mul_nonneg (by norm_num) har)
      (mul_nonneg (mul_nonneg (by norm_num) hcs) him)) hc

theorem aux_base_pos {ar cs im c : ℝ} (har : 0 ≤ ar) (hcs : 0 < cs)
    (him : 1 ≤ im) (hc : 0 < c) : 0 < (0.6 * ar + 0.4 * cs * im) * c := by
  have h1 : (0:ℝ) < 0.4 * cs * im := by nlinarith
  nlinarith

theorem score_le_of_priority (w h : ℤ) (d1 d2 : Detection)
    (hx1 : d2.x1 = d1.x1) (hy1 : d2.y1 = d1.y1) (hx2 : d2.x2 = d1.x2)
    (hy2 : d2.y2 = d1.y2) (hconf : d2.conf = d1.conf) (hc0 : 0 ≤ d1.conf)
    (hd1 : d1.label ∈ DANGER) (hd2 : d2.label ∉ DANGER) :
    score w h d2 ≤ score w h d1 := by
  obtain ⟨l1, c1, p1, q1, p2, q2⟩ := d1
  obtain ⟨l2, c2, p1', q1', p2', q2'⟩ := d2
  simp only at hx1 hy1 hx2 hy2 hconf hc0 hd1 hd2
  subst hx1; subst hy1; subst hx2; subst hy2; subst hconf
  have hp1 : priority l1 = 1.35 := by unfold priority; rw [if_pos hd1]
  have hp2 : priority l2 = 1 := by unfold priority; rw [if_neg hd2]
  simp only [score, area, hp1, hp2]
  refine mul_le_mul_of_nonneg_left (by norm_num) ?_
  refine aux_base_nonneg ?_ (by positivity) ?_ (by exact_mod_cast hc0)
  · exact_mod_cast mul_nonneg (le_max_left 0 _) (le_max_left 0 _)
  · exact_mod_cast le_trans zero_le_one (le_max_right (w * h) 1)

theorem score_lt_of_priority (w h : ℤ) (d1 d2 : Detection)
    (hx1 : d2.x1 = d1.x1) (hy1 : d2.y1 = d1.y1) (hx2 : d2.x2 = d1.x2)
    (hy2 : d2.y2 = d1.y2) (hconf : d2.conf = d1.conf) (hc0 : 0 < d1.conf)
    (hd1 : d1.label ∈ DANGER) (hd2 : d2.label ∉ DANGER) :
    score w h d2 < score w h d1 := by
  obtain ⟨l1, c1, p1, q1, p2, q2⟩ := d1
  obtain ⟨l2, c2, p1', q1', p2', q2'⟩ := d2
  simp only at hx1 hy1 hx2 hy2 hconf hc0 hd1 hd2
  subst hx1; subst hy1; subst hx2; subst hy2; subst hconf
  have hp1 : priority l1 = 1.35 := by unfold priority; rw [if_pos hd1]
  have hp2 : priority l2 = 1 := by unfold priority; rw [if_neg hd2]
  simp only [score, area, hp1, hp2]
  refine mul_lt_mul_of_pos_left (by norm_num) ?_
  refine aux_base_pos ?_ (by positivity) ?_ (by exact_mod_cast hc0)
  · exact_mod_cast mul_nonneg (le_max_left 0 _) (le_max_left 0 _)
  · exact_mod_cast le_max_right (w * h) 1

/-- C6 (amended): two detections share their bbox and confidence, one label
dangerous and the other not. The dangerous one's priority strictly exceeds
the other's, so its salience score is at least as large; when the shared
confidence is positive it also ranks at least as high in `rank_objects`.
(With zero confidence both scores vanish and the stable sort keeps the
input order, so the rank part can fail — see the counterexample.) -/
theorem danger_outranks_nondanger (dets : List Detection) (w h : ℤ)
    (d1 d2 : Detection)
    (hx1 : d2.x1 = d1.x1) (hy1 : d2.y1 = d1.y1) (hx2 : d2.x2 = d1.x2)
    (hy2 : d2.y2 = d1.y2) (hconf : d2.conf = d1.conf) (hc0 : 0 ≤ d1.conf)
    (hd1 : d1.label ∈ DANGER) (hd2 : d2.label ∉ DANGER) :
    priority d1.label = 1.35 ∧ priority d2.label = 1 ∧
    score w h d2 ≤ score w h d1 ∧
    (0 < d1.conf → d1 ∈ dets → d2 ∈ dets →
      (rank_objects dets w h).indexOf d1 ≤ (rank_objects dets w h).indexOf d2) := by
  refine ⟨by unfold priority; rw [if_pos hd1], by unfold priority; rw [if_neg hd2],
    score_le_of_priority w h d1 d2 hx1 hy1 hx2 hy2 hconf hc0 hd1 hd2, ?_⟩
  intro hcpos h1 h2
  have hne : d1 ≠ d2 := fun he => hd2 (he ▸ hd1)
  have hlt : score w h d2 < score w h d1 :=
    score_lt_of_priority w h d1 d2 hx1 hy1 hx2 hy2 hconf hcpos hd1 hd2
  have hsorted : (rank_objects dets w h).Pairwise (scoreGE w h) := rank_sorted dets w h
  have h1r : d1 ∈ rank_objects dets w h := ((rank_perm dets w h).mem_iff).mpr h1
  have h2r : d2 ∈ rank_objects dets w h := ((rank_perm dets w h).mem_iff).mpr h2
  exact le_of_lt (indexOf_lt_of_sorted_of_lt hsorted hne h1r h2r hlt)

/-- C6 witness: with confidence `1`, the dangerous `car` outranks the
non-dangerous `book` sharing its bbox. -/
theorem danger_outranks_nondanger_witness :
    score 10 10 (⟨"book", 1, 0, 0, 1, 1⟩ : Detection) ≤
      score 10 10 ⟨"car", 1, 0, 0, 1, 1⟩ ∧
    (rank_objects [⟨"car", 1, 0, 0, 1, 1⟩, ⟨"book", 1, 0, 0, 1, 1⟩] 10 10).indexOf
        ⟨"car", 1, 0, 0, 1, 1⟩ ≤
      (rank_objects [⟨"car", 1, 0, 0, 1, 1⟩, ⟨"book", 1, 0, 0, 1, 1⟩] 10 10).indexOf
        ⟨"book", 1, 0, 0, 1, 1⟩ := by
  have h := danger_outranks_nondanger
    [⟨"car", 1, 0, 0, 1, 1⟩, ⟨"book", 1, 0, 0, 1, 1⟩] 10 10
    ⟨"car", 1, 0, 0, 1, 1⟩ ⟨"book", 1, 0, 0, 1, 1⟩
    rfl rfl rfl rfl rfl (by norm_num) (by decide) (by decide)
  exact ⟨h.2.2.1, h.2.2.2 (by norm_num) (by simp) (by simp)⟩

/-- C6 counterexample: with shared confidence `0` the claim as stated fails:
the dangerous `car` placed after the non-dangerous `book` in the input keeps
the lower rank, because both scores are `0` and the sort is stable. -/
theorem danger_rank_counterexample :
    rank_objects [⟨"book", 0, 0, 0, 2, 2⟩, ⟨"car", 0, 0, 0, 2, 2⟩] 10 10 =
      [⟨"book", 0, 0, 0, 2, 2⟩, ⟨"car", 0, 0, 0, 2, 2⟩] ∧
    ¬ (rank_objects [⟨"book", 0, 0, 0, 2, 2⟩, ⟨"car", 0, 0, 0, 2, 2⟩] 10 10).indexOf
          (⟨"car", 0, 0, 0, 2, 2⟩ : Detection) ≤
        (rank_objects [⟨"book", 0, 0, 0, 2, 2⟩, ⟨"car", 0, 0, 0, 2, 2⟩] 10 10).indexOf
          ⟨"book", 0, 0, 0, 2, 2⟩ := by
  have hz : ∀ d : Detection, d.conf = 0 → score 10 10 d = 0 := by
    intro d hd
    simp [score, hd]
  have hz1 : score 10 10 (⟨"book", 0, 0, 0, 2, 2⟩ : Detection) = 0 := hz _ rfl
  have hz2 : score 10 10 (⟨"car", 0, 0, 0, 2, 2⟩ : Detection) = 0 := hz _ rfl
  have hr : rank_objects [⟨"book", 0, 0, 0, 2, 2⟩, ⟨"car", 0, 0, 0, 2, 2⟩] 10 10 =
      [⟨"book", 0, 0, 0, 2, 2⟩, ⟨"car", 0, 0, 0, 2, 2⟩] := by
    rw [rank_objects_cons]
    simp [List.insertionSort, List.orderedInsert, scoreGE, hz1, hz2]
  refine ⟨hr, ?_⟩
  rw [hr]
  have hne : (⟨"book", 0, 0, 0, 2, 2⟩ : Detection) ≠ ⟨"car", 0, 0, 0, 2, 2⟩ := by
    intro he
    exact absurd (congrArg Detection.label he) (by decide)
  rw [List.indexOf_cons_ne _ hne, List.indexOf_cons_self]
  simp

/-! ### End-to-end scenario (C7) -/

/-- C7 counterexample: in the spec's end-to-end scenario the bbox center
`x = 200` sits at `200/640 = 0.3125 < 0.35` of the frame width, so the
descriptor's position bucket is `left`, not `center`. -/
theorem scenario_position_counterexample :
    (describe ⟨"car", 9/10, 100, 100, 300, 300⟩ 640 480).pos = "слева" ∧
    "слева" ≠ "по центру" := by
  constructor
  · have hmaxw : (max (640 : ℤ) 1) = 640 := by decide
    simp only [describe, pos_word, hmaxw]
    norm_num
  · decide

/-- C7 (amended): the end-to-end scenario with the position bucket corrected
to `left`: ranking the single `car` detection yields it alone, the selection
is `[car]`, the descriptor is `машина / слева / близко / опасно`, and the
sentence states a car, on the left, close, and dangerous. -/
theorem scenario_end_to_end :
    rank_objects [⟨"car", 9/10, 100, 100, 300, 300⟩] 640 480 =
      [⟨"car", 9/10, 100, 100, 300, 300⟩] ∧
    pick_main_and_danger [⟨"car", 9/10, 100, 100, 300, 300⟩] =
      [⟨"car", 9/10, 100, 100, 300, 300⟩] ∧
    describe ⟨"car", 9/10, 100, 100, 300, 300⟩ 640 480 =
      ⟨"машина", "слева", "близко", "опасно"⟩ ∧
    make_phrase [⟨"car", 9/10, 100, 100, 300, 300⟩] 640 480 =
      "Перед вами машина, слева, близко. Это опасно." := by
  have hdesc : describe ⟨"car", 9/10, 100, 100, 300, 300⟩ 640 480 =
      ⟨"машина", "слева", "близко", "опасно"⟩ := by
    have hmaxw : (max (640 : ℤ) 1) = 640 := by decide
    have hmaxa : (max (640 * 480 : ℤ) 1) = 307200 := by decide
    have hname : ru_label "car" = "машина" := by decide
    have hdang : danger_word "car" = "опасно" := by decide
    simp only [describe, area, pos_word, distance_word, hmaxw, hmaxa, hname, hdang,
      Descriptor.mk.injEq]
    norm_num [max_def]
  have hrank : rank_objects [⟨"car", 9/10, 100, 100, 300, 300⟩] 640 480 =
      [⟨"car", 9/10, 100, 100, 300, 300⟩] := by
    rw [rank_objects_cons]
    simp [List.insertionSort, List.orderedInsert]
  have hpick : pick_main_and_danger [⟨"car", 9/10, 100, 100, 300, 300⟩] =
      [⟨"car", 9/10, 100, 100, 300, 300⟩] := rfl
  refine ⟨hrank, hpick, hdesc, ?_⟩
  simp only [make_phrase, hdesc]
  decide

end VisionAssistant
